import Mathlib

/-
Verification development for the square-lattice density-of-states repository.
The definitions below are a shallow embedding of src/functions_DOS.py:
floating-point numbers are modelled by real numbers, numpy arrays by lists
of reals, and the scipy composite Simpson quadrature by an explicit
recursion over sample triples.
-/

noncomputable section

/-- Model of np.linspace: n evenly spaced samples from a to b inclusive.
For n = 1 the division by zero yields junk 0, so the list is [a], matching
numpy. For n = 0 the list is empty. -/
def linspace (a b : ℝ) (n : ℕ) : List ℝ :=
  (List.range n).map (fun i : ℕ => a + (i : ℝ) * (b - a) / ((n : ℝ) - 1))

/-- Model of integral_lower_limit (functions_DOS.py lines 28-31). -/
def integral_lower_limit (energy energy_0 beta : ℝ) : ℝ :=
  if ¬ (energy_0 ≤ energy ∧ energy ≤ energy_0 + 4 * beta) then 0
  else Real.arccos ((energy_0 - energy) / (2 * beta) + 1)

/-- Model of integral_upper_limit (functions_DOS.py lines 56-59). -/
def integral_upper_limit (energy energy_0 beta : ℝ) : ℝ :=
  if ¬ (energy_0 - 4 * beta ≤ energy ∧ energy ≤ energy_0) then Real.pi
  else Real.arccos ((energy_0 - energy) / (2 * beta) - 1)

/-- Model of the xi-array construction of integrand_function
(functions_DOS.py lines 95-103): base uniform grid, then bord_param
refinement passes, pass i replacing the grid by a fine layer of width
step divided by num_points to the power i+1 at each end around the previous
grid with its first and last sample removed. -/
def xi_grid (lower_limit upper_limit : ℝ) (num_points bord_param : ℕ) : List ℝ :=
  (List.range bord_param).foldl
    (fun g i =>
      linspace lower_limit
        (lower_limit + (upper_limit - lower_limit) / (num_points : ℝ) ^ (i + 1)) num_points ++
      (g.drop 1).dropLast ++
      linspace (upper_limit - (upper_limit - lower_limit) / (num_points : ℝ) ^ (i + 1))
        upper_limit num_points)
    (linspace lower_limit upper_limit num_points)

/-- Model of the y-array loop of integrand_function (functions_DOS.py lines
108-115). The accumulator prev models y_array[idx - 1]: at idx = 0 the
Python index -1 reads the last entry of the still zero-initialised array,
so the initial accumulator passed by integrand_function below is 0. -/
def integrand_loop (c prev : ℝ) : List ℝ → List ℝ
  | [] => []
  | xi :: rest =>
    let differ := (c - Real.cos xi) ^ 2
    let y := if differ < 1 then 1 / Real.sqrt (1 - differ) else prev
    y :: integrand_loop c y rest

/-- Model of integrand_function (functions_DOS.py lines 62-116): the xi
grid over the integration limits and the integrand samples, which are all
zero unless the validity gate holds. -/
def integrand_function (energy energy_0 beta : ℝ) (num_points bord_param : ℕ) :
    List ℝ × List ℝ :=
  let xi_array := xi_grid (integral_lower_limit energy energy_0 beta)
    (integral_upper_limit energy energy_0 beta) num_points bord_param
  let y_array :=
    if |(energy_0 - energy) / (4 * beta)| ≤ 1 then
      integrand_loop ((energy_0 - energy) / (2 * beta)) 0 xi_array
    else List.replicate xi_array.length 0
  (xi_array, y_array)

/-- Model of the non-uniform composite Simpson rule of
scipy.integrate.simps over consecutive sample triples: with interval
widths h0 and h1 the triple contributes
(h0+h1)/6 times (y0 (2 - h1/h0) + y1 (h0+h1)^2/(h0 h1) + y2 (2 - h0/h1)). -/
def simpson_triples : List (ℝ × ℝ) → ℝ
  | (x0, y0) :: (x1, y1) :: (x2, y2) :: rest =>
    (((x1 - x0) + (x2 - x1)) / 6) *
      (y0 * (2 - (x2 - x1) / (x1 - x0)) +
       y1 * (((x1 - x0) + (x2 - x1)) ^ 2 / ((x1 - x0) * (x2 - x1))) +
       y2 * (2 - (x1 - x0) / (x2 - x1))) +
    simpson_triples ((x2, y2) :: rest)
  | _ => 0
termination_by l => l.length

/-- Trapezoid contribution of the first sample interval, used by the
scipy even-sample-count averaging scheme. -/
def trap_piece (xs ys : List ℝ) : ℝ :=
  match xs, ys with
  | x0 :: x1 :: _, y0 :: y1 :: _ => (x1 - x0) * (y1 + y0) / 2
  | _, _ => 0

/-- Trapezoid contribution of the last sample interval, expressed through
the reversed sample lists. -/
def trap_piece_last (xs ys : List ℝ) : ℝ :=
  - trap_piece xs.reverse ys.reverse

/-- Model of scipy.integrate.simps(y, x): for an odd number of samples the
composite Simpson rule over all triples; for an even number the scipy
default averaging of Simpson on the first samples plus a trapezoid on the
last interval with a trapezoid on the first interval plus Simpson on the
last samples. -/
def simps (ys xs : List ℝ) : ℝ :=
  if ys.length % 2 = 1 then simpson_triples (xs.zip ys)
  else
    ((simpson_triples (xs.dropLast.zip ys.dropLast) + trap_piece_last xs ys) +
     (simpson_triples ((xs.drop 1).zip (ys.drop 1)) + trap_piece xs ys)) / 2

/-- Model of the local variable num_points of gross_dos
(functions_DOS.py line 152): Python int truncation of
(num_points_energy + 2) / 2, which for nonnegative input is the natural
number floor division. -/
def num_points (num_points_energy : ℕ) : ℕ := (num_points_energy + 2) / 2

/-- Model of the energy-array construction of gross_dos (functions_DOS.py
lines 152-159): four uniform sub-segments concatenated, the two segments
below energy_0 with their last sample removed and the two above with their
first sample removed. -/
def energy_grid (energy_0 beta : ℝ) (num_points_energy : ℕ) (interval_energy : ℝ) : List ℝ :=
  (linspace (energy_0 - interval_energy * beta) energy_0 (num_points num_points_energy)).dropLast ++
  (linspace (energy_0 - interval_energy * beta / (num_points num_points_energy : ℝ)) energy_0
    (num_points num_points_energy)).dropLast ++
  ((linspace energy_0 (energy_0 + interval_energy * beta / (num_points num_points_energy : ℝ))
    (num_points num_points_energy)).drop 1) ++
  ((linspace energy_0 (energy_0 + interval_energy * beta) (num_points num_points_energy)).drop 1)

/-- Model of the loop body of gross_dos (functions_DOS.py lines 163-166):
the DOS value for one energy sample. -/
def dos_at_energy (energy_0 beta lattice_constant : ℝ) (num_points_xi bord_param : ℕ)
    (energy_val : ℝ) : ℝ :=
  1 / (lattice_constant ^ 2 * beta * Real.pi ^ 2) *
    simps (integrand_function energy_val energy_0 beta num_points_xi bord_param).2
          (integrand_function energy_val energy_0 beta num_points_xi bord_param).1

/-- Model of gross_dos (functions_DOS.py lines 119-168): the energy array
and the DOS array obtained by evaluating dos_at_energy at every energy
sample. -/
def gross_dos (energy_0 beta lattice_constant : ℝ) (num_points_energy num_points_xi : ℕ)
    (interval_energy : ℝ) (bord_param : ℕ) : List ℝ × List ℝ :=
  (energy_grid energy_0 beta num_points_energy interval_energy,
   (energy_grid energy_0 beta num_points_energy interval_energy).map
     (dos_at_energy energy_0 beta lattice_constant num_points_xi bord_param))

/-- Affine sample segment: k samples a, a + c, ..., a + (k-1)c, the common
shape of the sliced linspace segments of the energy grid. -/
def affseg (a c : ℝ) (k : ℕ) : List ℝ :=
  (List.range k).map (fun i : ℕ => a + (i : ℝ) * c)

/-- Formulation of the integration lower limit following the words of the
specification section 4.1, for comparison with the source definition. -/
def spec_lower_limit (energy energy_0 beta : ℝ) : ℝ :=
  if energy ∉ Set.Icc energy_0 (energy_0 + 4 * beta) then 0
  else Real.arccos ((energy_0 - energy) / (2 * beta) + 1)

/-- Formulation of the integration upper limit following the words of the
specification section 4.1, for comparison with the source definition. -/
def spec_upper_limit (energy energy_0 beta : ℝ) : ℝ :=
  if energy ∉ Set.Icc (energy_0 - 4 * beta) energy_0 then Real.pi
  else Real.arccos ((energy_0 - energy) / (2 * beta) - 1)

lemma linspace_length (a b : ℝ) (n : ℕ) : (linspace a b n).length = n := by
  simp [linspace]

lemma affseg_length (a c : ℝ) (k : ℕ) : (affseg a c k).length = k := by
  simp [affseg]

lemma num_points_ge_one (nE : ℕ) : 1 ≤ num_points nE := by
  unfold num_points; omega

lemma num_points_ge_two {nE : ℕ} (h : 2 ≤ nE) : 2 ≤ num_points nE := by
  unfold num_points; omega

lemma linspace_dropLast (a b : ℝ) (j : ℕ) :
    (linspace a b (j + 1)).dropLast = affseg a ((b - a) / (j : ℝ)) j := by
  unfold linspace affseg
  rw [List.range_succ, List.map_append, List.map_singleton, List.dropLast_concat]
  refine List.map_congr_left fun i hi => ?_
  push_cast
  ring

lemma linspace_drop_one (a b : ℝ) (j : ℕ) :
    (linspace a b (j + 1)).drop 1 =
      affseg (a + (b - a) / (j : ℝ)) ((b - a) / (j : ℝ)) j := by
  unfold linspace affseg
  rw [List.range_succ_eq_map, List.map_cons, List.drop_succ_cons, List.drop_zero,
    List.map_map]
  refine List.map_congr_left fun i hi => ?_
  simp only [Function.comp_apply, Nat.succ_eq_add_one]
  push_cast
  ring

lemma affseg_mem {a c x : ℝ} {k : ℕ} (hx : x ∈ affseg a c k) :
    ∃ i : ℕ, i < k ∧ x = a + (i : ℝ) * c := by
  simp only [affseg, List.mem_map, List.mem_range] at hx
  obtain ⟨i, hi, rfl⟩ := hx
  exact ⟨i, hi, rfl⟩

lemma affseg_mem_bounds {a c x : ℝ} {k : ℕ} (hc : 0 ≤ c) (hx : x ∈ affseg a c k) :
    a ≤ x ∧ x ≤ a + ((k : ℝ) - 1) * c ∧ 1 ≤ k := by
  obtain ⟨i, hi, rfl⟩ := affseg_mem hx
  have hik : (i : ℝ) ≤ (k : ℝ) - 1 := by
    have : (i : ℝ) + 1 ≤ (k : ℝ) := by exact_mod_cast hi
    linarith
  have hi0 : (0 : ℝ) ≤ (i : ℝ) := Nat.cast_nonneg i
  refine ⟨by nlinarith, by nlinarith, by omega⟩

lemma affseg_sorted (a c : ℝ) (k : ℕ) (hc : 0 ≤ c) :
    (affseg a c k).Sorted (· ≤ ·) := by
  unfold affseg List.Sorted
  rw [List.pairwise_map]
  refine (List.pairwise_lt_range k).imp fun {i j} hij => ?_
  have : (i : ℝ) ≤ (j : ℝ) := by exact_mod_cast hij.le
  nlinarith

lemma affseg_head (a c : ℝ) (k : ℕ) : (affseg a c (k + 1)).head? = some a := by
  simp [affseg, List.range_succ_eq_map]

lemma affseg_getLast (a c : ℝ) (k : ℕ) :
    (affseg a c (k + 1)).getLast? = some (a + (k : ℝ) * c) := by
  simp [affseg, List.range_succ]

lemma energy_grid_eq (e0 b iE : ℝ) (nE j : ℕ) (hj : num_points nE = j + 1) :
    energy_grid e0 b nE iE =
      affseg (e0 - iE * b) (iE * b / (j : ℝ)) j ++
      affseg (e0 - iE * b / ((j : ℝ) + 1)) (iE * b / ((j : ℝ) + 1) / (j : ℝ)) j ++
      affseg (e0 + iE * b / ((j : ℝ) + 1) / (j : ℝ)) (iE * b / ((j : ℝ) + 1) / (j : ℝ)) j ++
      affseg (e0 + iE * b / (j : ℝ)) (iE * b / (j : ℝ)) j := by
  rw [energy_grid, hj, linspace_dropLast, linspace_dropLast, linspace_drop_one,
    linspace_drop_one]
  push_cast
  have h1 : e0 - (e0 - iE * b) = iE * b := by ring
  have h2 : e0 - (e0 - iE * b / ((j : ℝ) + 1)) = iE * b / ((j : ℝ) + 1) := by ring
  have h3 : e0 + iE * b / ((j : ℝ) + 1) - e0 = iE * b / ((j : ℝ) + 1) := by ring
  have h4 : e0 + iE * b - e0 = iE * b := by ring
  rw [h1, h2, h3, h4]

lemma energy_grid_length (e0 b iE : ℝ) (nE : ℕ) :
    (energy_grid e0 b nE iE).length = 4 * num_points nE - 4 := by
  have h1 := num_points_ge_one nE
  simp only [energy_grid, List.length_append, List.length_dropLast, List.length_drop,
    linspace_length]
  omega

lemma energy_grid_sorted (e0 b iE : ℝ) (nE : ℕ) (hstep : 0 ≤ iE * b) :
    (energy_grid e0 b nE iE).Sorted (· ≤ ·) := by
  obtain ⟨j, hj⟩ : ∃ j, num_points nE = j + 1 :=
    ⟨num_points nE - 1, by have := num_points_ge_one nE; omega⟩
  rw [energy_grid_eq e0 b iE nE j hj]
  set s := iE * b with hs
  set J := (j : ℝ) with hJ
  have hJ0 : 0 ≤ J := Nat.cast_nonneg j
  have hJ1 : 0 < J + 1 := by linarith
  have hc1 : 0 ≤ s / J := div_nonneg hstep hJ0
  have hc2 : 0 ≤ s / (J + 1) / J := div_nonneg (div_nonneg hstep hJ1.le) hJ0
  have hAub : ∀ x ∈ affseg (e0 - s) (s / J) j, x ≤ e0 - s / J := by
    intro x hx
    obtain ⟨h1, h2, h3⟩ := affseg_mem_bounds hc1 hx
    have hJpos : (0 : ℝ) < J := by
      rw [hJ]; exact_mod_cast Nat.lt_of_lt_of_le Nat.zero_lt_one h3
    have key : (e0 - s) + (J - 1) * (s / J) = e0 - s / J := by
      field_simp
      ring
    linarith
  have hBlb : ∀ x ∈ affseg (e0 - s / (J + 1)) (s / (J + 1) / J) j, e0 - s / (J + 1) ≤ x :=
    fun x hx => (affseg_mem_bounds hc2 hx).1
  have hBub : ∀ x ∈ affseg (e0 - s / (J + 1)) (s / (J + 1) / J) j, x ≤ e0 := by
    intro x hx
    obtain ⟨h1, h2, h3⟩ := affseg_mem_bounds hc2 hx
    have hJpos : (0 : ℝ) < J := by
      rw [hJ]; exact_mod_cast Nat.lt_of_lt_of_le Nat.zero_lt_one h3
    have key : (e0 - s / (J + 1)) + (J - 1) * (s / (J + 1) / J) = e0 - s / ((J + 1) * J) := by
      field_simp
      ring
    have : 0 ≤ s / ((J + 1) * J) := div_nonneg hstep (by positivity)
    linarith
  have hClb : ∀ x ∈ affseg (e0 + s / (J + 1) / J) (s / (J + 1) / J) j, e0 ≤ x := by
    intro x hx
    have := (affseg_mem_bounds hc2 hx).1
    linarith
  have hCub : ∀ x ∈ affseg (e0 + s / (J + 1) / J) (s / (J + 1) / J) j, x ≤ e0 + s / (J + 1) := by
    intro x hx
    obtain ⟨h1, h2, h3⟩ := affseg_mem_bounds hc2 hx
    have hJpos : (0 : ℝ) < J := by
      rw [hJ]; exact_mod_cast Nat.lt_of_lt_of_le Nat.zero_lt_one h3
    have key : (e0 + s / (J + 1) / J) + (J - 1) * (s / (J + 1) / J) = e0 + s / (J + 1) := by
      field_simp
      ring
    linarith
  have hDlb : ∀ x ∈ affseg (e0 + s / J) (s / J) j, e0 + s / J ≤ x :=
    fun x hx => (affseg_mem_bounds hc1 hx).1
  have hdivs : ∀ x ∈ affseg (e0 - s) (s / J) j, s / (J + 1) ≤ s / J := by
    intro x hx
    have h3 := (affseg_mem_bounds hc1 hx).2.2
    have hJpos : (0 : ℝ) < J := by
      rw [hJ]; exact_mod_cast Nat.lt_of_lt_of_le Nat.zero_lt_one h3
    gcongr
    linarith
  have hdivs' : ∀ x ∈ affseg (e0 + s / J) (s / J) j, s / (J + 1) ≤ s / J := by
    intro x hx
    have h3 := (affseg_mem_bounds hc1 hx).2.2
    have hJpos : (0 : ℝ) < J := by
      rw [hJ]; exact_mod_cast Nat.lt_of_lt_of_le Nat.zero_lt_one h3
    gcongr
    linarith
  have hs1 : ∀ x ∈ affseg (e0 - s) (s / J) j, 0 ≤ s / (J + 1) ∧ s / (J + 1) ≤ s / J := by
    intro x hx
    exact ⟨div_nonneg hstep hJ1.le, hdivs x hx⟩
  rw [List.Sorted, List.pairwise_append, List.pairwise_append, List.pairwise_append]
  refine ⟨⟨⟨affseg_sorted _ _ _ hc1, affseg_sorted _ _ _ hc2, ?_⟩,
    affseg_sorted _ _ _ hc2, ?_⟩, affseg_sorted _ _ _ hc1, ?_⟩
  · intro x hx y hy
    have h1 := hAub x hx
    obtain ⟨h4, h2⟩ := hs1 x hx
    have h3 := hBlb y hy
    linarith
  · intro x hx y hy
    have h2 := hClb y hy
    rcases List.mem_append.1 hx with hx | hx
    · have h1 := hAub x hx
      obtain ⟨h4, h3⟩ := hs1 x hx
      have h5 : 0 ≤ s / J := hc1
      linarith
    · have h1 := hBub x hx
      linarith
  · intro x hx y hy
    have h2 := hDlb y hy
    have h3 := hdivs' y hy
    have h4 : 0 ≤ s / (J + 1) := div_nonneg hstep hJ1.le
    rcases List.mem_append.1 hx with hx | hx
    · rcases List.mem_append.1 hx with hx | hx
      · have h1 := hAub x hx
        have h5 : 0 ≤ s / J := hc1
        linarith
      · have h1 := hBub x hx
        linarith
    · have h1 := hCub x hx
      linarith

lemma energy_grid_head (e0 b iE : ℝ) (nE : ℕ) (h2 : 2 ≤ nE) :
    (energy_grid e0 b nE iE).head? = some (e0 - iE * b) := by
  obtain ⟨j, hj⟩ : ∃ j, num_points nE = j + 2 :=
    ⟨num_points nE - 2, by have := num_points_ge_two h2; omega⟩
  rw [energy_grid_eq e0 b iE nE (j + 1) (by omega)]
  rw [List.append_assoc, List.append_assoc, List.head?_append, affseg_head]
  rfl

lemma energy_grid_getLast (e0 b iE : ℝ) (nE : ℕ) (h2 : 2 ≤ nE) :
    (energy_grid e0 b nE iE).getLast? = some (e0 + iE * b) := by
  obtain ⟨j, hj⟩ : ∃ j, num_points nE = j + 2 :=
    ⟨num_points nE - 2, by have := num_points_ge_two h2; omega⟩
  rw [energy_grid_eq e0 b iE nE (j + 1) (by omega), List.getLast?_append, affseg_getLast]
  have hJpos : (0 : ℝ) < (j : ℝ) + 1 := by positivity
  have : e0 + iE * b / ((j : ℝ) + 1) + (j : ℝ) * (iE * b / ((j : ℝ) + 1)) =
      e0 + iE * b := by
    field_simp
    ring
  show some _ = some _
  push_cast
  rw [this]

lemma energy_grid_not_mem_center (e0 b iE : ℝ) (nE : ℕ) (hb : 0 < b) (hiE : 0 < iE) :
    e0 ∉ energy_grid e0 b nE iE := by
  obtain ⟨j, hj⟩ : ∃ j, num_points nE = j + 1 :=
    ⟨num_points nE - 1, by have := num_points_ge_one nE; omega⟩
  rw [energy_grid_eq e0 b iE nE j hj]
  set s := iE * b with hs
  set J := (j : ℝ) with hJdef
  have hstep : 0 < s := by positivity
  have hJ0 : 0 ≤ J := Nat.cast_nonneg j
  have hJ1 : 0 < J + 1 := by linarith
  have hc1 : 0 ≤ s / J := div_nonneg hstep.le hJ0
  have hc2 : 0 ≤ s / (J + 1) / J := div_nonneg (div_nonneg hstep.le hJ1.le) hJ0
  intro hmem
  have hJpos : ∀ {base c : ℝ}, e0 ∈ affseg base c j → (0 : ℝ) < J := by
    intro base c hx
    obtain ⟨i, hi, _⟩ := affseg_mem hx
    rw [hJdef]
    exact_mod_cast Nat.lt_of_lt_of_le (Nat.zero_lt_of_lt hi) (le_refl j)
  rcases List.mem_append.1 hmem with hmem | hD
  · rcases List.mem_append.1 hmem with hmem | hC
    · rcases List.mem_append.1 hmem with hA | hB
      · have hJp := hJpos hA
        obtain ⟨h1, h2, h3⟩ := affseg_mem_bounds hc1 hA
        have key : (e0 - s) + (J - 1) * (s / J) = e0 - s / J := by
          field_simp
          ring
        have : 0 < s / J := div_pos hstep hJp
        linarith
      · have hJp := hJpos hB
        obtain ⟨h1, h2, h3⟩ := affseg_mem_bounds hc2 hB
        have key : (e0 - s / (J + 1)) + (J - 1) * (s / (J + 1) / J) =
            e0 - s / ((J + 1) * J) := by
          field_simp
          ring
        have : 0 < s / ((J + 1) * J) := div_pos hstep (by positivity)
        linarith
    · have hJp := hJpos hC
      obtain ⟨h1, h2, h3⟩ := affseg_mem_bounds hc2 hC
      have : 0 < s / (J + 1) / J := div_pos (div_pos hstep hJ1) hJp
      linarith
  · have hJp := hJpos hD
    obtain ⟨h1, h2, h3⟩ := affseg_mem_bounds hc1 hD
    have : 0 < s / J := div_pos hstep hJp
    linarith

lemma integrand_loop_length (c : ℝ) :
    ∀ (xs : List ℝ) (p : ℝ), (integrand_loop c p xs).length = xs.length := by
  intro xs
  induction xs with
  | nil => intro p; rfl
  | cons x rest ih => intro p; simp [integrand_loop, ih]

lemma integrand_loop_getD (c : ℝ) :
    ∀ (xs : List ℝ) (p : ℝ) (idx : ℕ), idx < xs.length →
      (((c - Real.cos (xs.getD idx 0)) ^ 2 < 1 →
        (integrand_loop c p xs).getD idx 0 =
          1 / Real.sqrt (1 - (c - Real.cos (xs.getD idx 0)) ^ 2)) ∧
      (1 ≤ (c - Real.cos (xs.getD idx 0)) ^ 2 →
        (integrand_loop c p xs).getD idx 0 =
          if idx = 0 then p else (integrand_loop c p xs).getD (idx - 1) 0)) := by
  intro xs
  induction xs with
  | nil => intro p idx h; simp at h
  | cons x rest ih =>
    intro p idx h
    match idx with
    | 0 =>
      simp only [List.getD_cons_zero, integrand_loop]
      constructor
      · intro hlt
        rw [if_pos hlt]
      · intro hge
        rw [if_neg (not_lt.mpr hge)]
        simp
    | n + 1 =>
      have hn : n < rest.length := by simpa using h
      simp only [List.getD_cons_succ, integrand_loop]
      set y := if (c - Real.cos x) ^ 2 < 1 then 1 / Real.sqrt (1 - (c - Real.cos x) ^ 2) else p
        with hy
      obtain ⟨ih1, ih2⟩ := ih y n hn
      refine ⟨ih1, fun hge => ?_⟩
      rw [ih2 hge]
      match n with
      | 0 => simp
      | k + 1 => simp

lemma integrand_loop_all_singular (c : ℝ) :
    ∀ xs : List ℝ, (∀ x ∈ xs, 1 ≤ (c - Real.cos x) ^ 2) →
      integrand_loop c 0 xs = List.replicate xs.length 0 := by
  intro xs
  induction xs with
  | nil => intro _; rfl
  | cons x rest ih =>
    intro h
    have hx : 1 ≤ (c - Real.cos x) ^ 2 := h x (List.mem_cons_self x rest)
    simp only [integrand_loop, if_neg (not_lt.mpr hx), List.length_cons,
      List.replicate_succ]
    exact congrArg (List.cons 0) (ih fun z hz => h z (List.mem_cons_of_mem x hz))

lemma simpson_triples_zero :
    ∀ ps : List (ℝ × ℝ), (∀ p ∈ ps, p.2 = 0) → simpson_triples ps = 0 := by
  intro ps
  induction ps using simpson_triples.induct with
  | case1 x0 y0 x1 y1 x2 y2 rest ih =>
    intro h
    have h0 : y0 = 0 := h (x0, y0) (by simp)
    have h1 : y1 = 0 := h (x1, y1) (by simp)
    have h2 : y2 = 0 := h (x2, y2) (by simp)
    rw [simpson_triples, ih (fun p hp => h p (List.mem_cons_of_mem _ (List.mem_cons_of_mem _ hp)))]
    rw [h0, h1, h2]
    ring
  | case2 ps h1 =>
    intro _
    rw [simpson_triples]
    exact h1

lemma trap_piece_zero : ∀ (xs ys : List ℝ), (∀ y ∈ ys, y = 0) → trap_piece xs ys = 0 := by
  intro xs ys h
  match xs, ys with
  | [], ys => rfl
  | [x], ys => rfl
  | x0 :: x1 :: xr, [] => rfl
  | x0 :: x1 :: xr, [y] => rfl
  | x0 :: x1 :: xr, y0 :: y1 :: yr =>
    have h0 : y0 = 0 := h y0 (by simp)
    have h1 : y1 = 0 := h y1 (by simp)
    show (x1 - x0) * (y1 + y0) / 2 = 0
    rw [h0, h1]
    ring

lemma trap_piece_last_zero {xs ys : List ℝ} (h : ∀ y ∈ ys, y = 0) :
    trap_piece_last xs ys = 0 := by
  unfold trap_piece_last
  rw [trap_piece_zero xs.reverse ys.reverse fun y hy => h y (List.mem_reverse.1 hy)]
  ring

lemma simps_all_zero (ys xs : List ℝ) (h : ∀ y ∈ ys, y = 0) : simps ys xs = 0 := by
  have hzip : ∀ (l l' : List ℝ), (∀ y ∈ l', y = 0) →
      ∀ p ∈ l.zip l', (p : ℝ × ℝ).2 = 0 := by
    intro l l' hl' p hp
    obtain ⟨a, b⟩ := p
    exact hl' b (List.of_mem_zip hp).2
  unfold simps
  split
  · exact simpson_triples_zero _ (hzip xs ys h)
  · rw [simpson_triples_zero _ (hzip xs.dropLast ys.dropLast
      fun y hy => h y (List.dropLast_subset ys hy))]
    rw [simpson_triples_zero _ (hzip (xs.drop 1) (ys.drop 1)
      fun y hy => h y (List.drop_subset 1 ys hy))]
    rw [trap_piece_zero xs ys h, trap_piece_last_zero h]
    ring

lemma gate_false_of_outside {energy e0 b : ℝ} (hb : 0 < b)
    (h : 4 * b < |energy - e0|) : ¬ |(e0 - energy) / (4 * b)| ≤ 1 := by
  rw [abs_div, abs_of_pos (by positivity : (0 : ℝ) < 4 * b), not_le,
    lt_div_iff₀ (by positivity : (0 : ℝ) < 4 * b), one_mul, abs_sub_comm]
  exact h

lemma integrand_snd_outside {energy e0 b : ℝ} (n bp : ℕ) (hb : 0 < b)
    (h : 4 * b < |energy - e0|) :
    (integrand_function energy e0 b n bp).2 =
      List.replicate (integrand_function energy e0 b n bp).1.length 0 := by
  simp only [integrand_function]
  rw [if_neg (gate_false_of_outside hb h)]

lemma dos_at_energy_outside {e0 b a energy : ℝ} (nXi bp : ℕ) (hb : 0 < b)
    (h : 4 * b < |energy - e0|) : dos_at_energy e0 b a nXi bp energy = 0 := by
  unfold dos_at_energy
  rw [integrand_snd_outside nXi bp hb h,
    simps_all_zero _ _ fun y hy => List.eq_of_mem_replicate hy, mul_zero]

lemma xi_grid_zero_eq (l u : ℝ) (n : ℕ) : xi_grid l u n 0 = linspace l u n := rfl

lemma xi_grid_succ_eq (l u : ℝ) (n b : ℕ) :
    xi_grid l u n (b + 1) =
      linspace l (l + (u - l) / (n : ℝ) ^ (b + 1)) n ++
      ((xi_grid l u n b).drop 1).dropLast ++
      linspace (u - (u - l) / (n : ℝ) ^ (b + 1)) u n := by
  unfold xi_grid
  rw [List.range_succ, List.foldl_concat]

lemma gross_dos_snd_getD (e0 b a : ℝ) (nE nXi : ℕ) (iE : ℝ) (bp : ℕ) {idx : ℕ}
    (h : idx < (energy_grid e0 b nE iE).length) :
    (gross_dos e0 b a nE nXi iE bp).2.getD idx 0 =
      dos_at_energy e0 b a nXi bp ((energy_grid e0 b nE iE).getD idx 0) := by
  have hg : (energy_grid e0 b nE iE)[idx]? = some (energy_grid e0 b nE iE)[idx] :=
    List.getElem?_eq_getElem h
  simp [gross_dos, List.getD_eq_getElem?_getD, List.getElem?_map, hg]

/-- Claim C2: for all real energy, energy_0 and beta > 0, integral_lower_limit
returns 0 when energy is outside the closed interval from energy_0 to
energy_0 + 4 beta and arccos((energy_0 - energy)/(2 beta) + 1) otherwise,
and integral_upper_limit returns pi when energy is outside the closed
interval from energy_0 - 4 beta to energy_0 and
arccos((energy_0 - energy)/(2 beta) - 1) otherwise; the two branches are
decided independently by their own interval tests. Stated as pointwise
agreement of the source functions with the spec formulations
spec_lower_limit and spec_upper_limit. -/
theorem claim_C2_limits_match_spec (energy e0 b : ℝ) (_hb : 0 < b) :
    integral_lower_limit energy e0 b = spec_lower_limit energy e0 b ∧
    integral_upper_limit energy e0 b = spec_upper_limit energy e0 b := by
  constructor
  · simp [integral_lower_limit, spec_lower_limit, Set.mem_Icc]
  · simp [integral_upper_limit, spec_upper_limit, Set.mem_Icc]

/-- Witness for claim C2 at energy 2, energy_0 0 and beta 1. -/
theorem claim_C2_witness :
    integral_lower_limit 2 0 1 = spec_lower_limit 2 0 1 ∧
    integral_upper_limit 2 0 1 = spec_upper_limit 2 0 1 :=
  claim_C2_limits_match_spec 2 0 1 (by norm_num)

/-- Counterexample for claim C4: at num_points_energy = 5 the code computes
num_points = int((5+2)/2) = 3, the floor of 3.5, whereas the ceiling of
(5+2)/2 claimed by the spec is 4. -/
theorem claim_C4_counterexample :
    num_points 5 = 3 ∧ ⌈((5 : ℚ) + 2) / 2⌉ = 4 := by
  constructor
  · rfl
  · rw [show ((5 : ℚ) + 2) / 2 = 7 / 2 by norm_num]
    rw [Int.ceil_eq_iff]
    norm_num

/-- Claim C4 (amended): gross_dos derives the per-sub-segment point count as
num_points equal to the floor, not the ceiling, of (num_points_energy+2)/2
(Python int truncation of a nonnegative float), and the returned energy
array has length 4 num_points - 4, which is about twice num_points_energy
rather than approximately num_points_energy. -/
theorem claim_C4_amended (e0 b a iE : ℝ) (nE nXi bp : ℕ) :
    (gross_dos e0 b a nE nXi iE bp).1.length = 4 * num_points nE - 4 ∧
    num_points nE = ⌊((nE : ℚ) + 2) / 2⌋₊ := by
  constructor
  · exact energy_grid_length e0 b iE nE
  · rw [show ((nE : ℚ) + 2) = ((nE + 2 : ℕ) : ℚ) by push_cast; ring,
      show (2 : ℚ) = ((2 : ℕ) : ℚ) by norm_num, Nat.floor_div_nat]
    rfl

/-- Counterexample for claim C5: with energy_0 = 0, beta = 1,
lattice_constant = 1, num_points_energy = 2, num_points_xi = 5,
interval_energy = 1 and bord_param = 0 the energy array returned by
gross_dos is the four points -1, -1/2, 1/2, 1 and does not contain
energy_0 = 0 at all, hence not exactly once: every one of the four
sub-segments excludes energy_0 by its slicing. -/
theorem claim_C5_counterexample : (0 : ℝ) ∉ (gross_dos 0 1 1 2 5 1 0).1 := by
  show (0 : ℝ) ∉ energy_grid 0 1 2 1
  unfold energy_grid linspace
  rw [show num_points 2 = 2 from rfl]
  rw [show List.range 2 = [0, 1] from rfl]
  simp only [List.map_cons, List.map_nil, List.dropLast, List.drop]
  norm_num

/-- Claim C5 (amended): for all beta > 0 and interval_energy > 0 the energy
array returned by gross_dos never contains the value energy_0: each of the
four sub-segments excludes it by slicing, so energy_0 appears zero times
rather than exactly once. -/
theorem claim_C5_amended (e0 b iE a : ℝ) (nE nXi bp : ℕ)
    (hb : 0 < b) (hiE : 0 < iE) : e0 ∉ (gross_dos e0 b a nE nXi iE bp).1 :=
  energy_grid_not_mem_center e0 b iE nE hb hiE

/-- Witness for the amended claim C5 at energy_0 = 0, beta = 1,
interval_energy = 1, num_points_energy = 3. -/
theorem claim_C5_witness : (0 : ℝ) ∉ (gross_dos 0 1 1 3 2 1 0).1 :=
  claim_C5_amended 0 1 1 1 3 2 0 (by norm_num) (by norm_num)

/-- Claim C6: the xi grid starts as num_points uniformly spaced samples over
the interval from lower to upper; refinement pass i replaces the grid by the
concatenation of num_points uniform samples over the first sub-interval of
width step divided by num_points to the power i+1, the previous grid with
its first and last sample removed, and num_points uniform samples over the
mirror sub-interval at the upper end, step being the original width; zero
passes yield the unrefined uniform grid, and on the interval from 0 to pi
with num_points 5 the grid is exactly the five points 0, pi/4, pi/2,
3 pi/4 and pi. -/
theorem claim_C6_xi_grid :
    (∀ (l u : ℝ) (n b : ℕ),
      xi_grid l u n 0 = linspace l u n ∧
      xi_grid l u n (b + 1) =
        linspace l (l + (u - l) / (n : ℝ) ^ (b + 1)) n ++
        ((xi_grid l u n b).drop 1).dropLast ++
        linspace (u - (u - l) / (n : ℝ) ^ (b + 1)) u n) ∧
    xi_grid 0 Real.pi 5 0 = [0, Real.pi / 4, Real.pi / 2, 3 * Real.pi / 4, Real.pi] := by
  refine ⟨fun l u n b => ⟨xi_grid_zero_eq l u n, xi_grid_succ_eq l u n b⟩, ?_⟩
  rw [xi_grid_zero_eq]
  unfold linspace
  rw [show List.range 5 = [0, 1, 2, 3, 4] from rfl]
  simp only [List.map_cons, List.map_nil]
  norm_num
  ring

/-- Claim C8: for beta > 0 and energy strictly inside the upper half-band
from energy_0 to energy_0 + 4 beta, or strictly inside the lower half-band
from energy_0 - 4 beta to energy_0, the integration limits satisfy
lower < upper with both values between 0 and pi. -/
theorem claim_C8_limits_inside_band (energy e0 b : ℝ) (hb : 0 < b)
    (h : (e0 < energy ∧ energy < e0 + 4 * b) ∨ (e0 - 4 * b < energy ∧ energy < e0)) :
    integral_lower_limit energy e0 b < integral_upper_limit energy e0 b ∧
    0 ≤ integral_lower_limit energy e0 b ∧ integral_lower_limit energy e0 b ≤ Real.pi ∧
    0 ≤ integral_upper_limit energy e0 b ∧ integral_upper_limit energy e0 b ≤ Real.pi := by
  rcases h with ⟨h1, h2⟩ | ⟨h1, h2⟩
  · have hl : integral_lower_limit energy e0 b =
        Real.arccos ((e0 - energy) / (2 * b) + 1) := by
      unfold integral_lower_limit
      rw [if_neg (not_not_intro ⟨h1.le, h2.le⟩)]
    have hu : integral_upper_limit energy e0 b = Real.pi := by
      unfold integral_upper_limit
      rw [if_pos (fun hand => absurd hand.2 (not_le.mpr h1))]
    have harg : -1 < (e0 - energy) / (2 * b) + 1 := by
      have : -2 * (2 * b) < e0 - energy := by linarith
      have := (lt_div_iff₀ (by positivity : (0 : ℝ) < 2 * b)).mpr this
      linarith
    have hlt : Real.arccos ((e0 - energy) / (2 * b) + 1) < Real.pi := by
      refine lt_of_le_of_ne (Real.arccos_le_pi _) fun hEq => ?_
      have := Real.arccos_eq_pi.1 hEq
      linarith
    rw [hl, hu]
    exact ⟨hlt, Real.arccos_nonneg _, Real.arccos_le_pi _, Real.pi_nonneg, le_refl _⟩
  · have hl : integral_lower_limit energy e0 b = 0 := by
      unfold integral_lower_limit
      rw [if_pos (fun hand => absurd hand.1 (not_le.mpr h2))]
    have hu : integral_upper_limit energy e0 b =
        Real.arccos ((e0 - energy) / (2 * b) - 1) := by
      unfold integral_upper_limit
      rw [if_neg (not_not_intro ⟨h1.le, h2.le⟩)]
    have harg : (e0 - energy) / (2 * b) - 1 < 1 := by
      have : e0 - energy < 2 * (2 * b) := by linarith
      have := (div_lt_iff₀ (by positivity : (0 : ℝ) < 2 * b)).mpr this
      linarith
    have hpos : 0 < Real.arccos ((e0 - energy) / (2 * b) - 1) :=
      Real.arccos_pos.2 harg
    rw [hl, hu]
    exact ⟨hpos, le_refl _, Real.pi_nonneg, Real.arccos_nonneg _, Real.arccos_le_pi _⟩

/-- Witness for claim C8 at energy 2, energy_0 0 and beta 1, strictly inside
the upper half-band. -/
theorem claim_C8_witness :
    integral_lower_limit 2 0 1 < integral_upper_limit 2 0 1 ∧
    0 ≤ integral_lower_limit 2 0 1 ∧ integral_lower_limit 2 0 1 ≤ Real.pi ∧
    0 ≤ integral_upper_limit 2 0 1 ∧ integral_upper_limit 2 0 1 ≤ Real.pi :=
  claim_C8_limits_inside_band 2 0 1 (by norm_num) (Or.inl (by norm_num))

/-- Claim C9: for beta > 0, interval_energy > 0 and num_points_energy at
least 2, the energy array returned by gross_dos is monotonically
non-decreasing and its first and last elements equal
energy_0 - interval_energy beta and energy_0 + interval_energy beta
exactly. -/
theorem claim_C9_energy_grid (e0 b a iE : ℝ) (nE nXi bp : ℕ)
    (hb : 0 < b) (hiE : 0 < iE) (hnE : 2 ≤ nE) :
    (gross_dos e0 b a nE nXi iE bp).1.Sorted (· ≤ ·) ∧
    (gross_dos e0 b a nE nXi iE bp).1.head? = some (e0 - iE * b) ∧
    (gross_dos e0 b a nE nXi iE bp).1.getLast? = some (e0 + iE * b) :=
  ⟨energy_grid_sorted e0 b iE nE (by positivity), energy_grid_head e0 b iE nE hnE,
    energy_grid_getLast e0 b iE nE hnE⟩

/-- Witness for claim C9 at energy_0 = 0, beta = 1, interval_energy = 1,
num_points_energy = 2. -/
theorem claim_C9_witness :
    (gross_dos 0 1 1 2 2 1 0).1.Sorted (· ≤ ·) ∧
    (gross_dos 0 1 1 2 2 1 0).1.head? = some (0 - 1 * 1) ∧
    (gross_dos 0 1 1 2 2 1 0).1.getLast? = some (0 + 1 * 1) :=
  claim_C9_energy_grid 0 1 1 1 2 2 0 (by norm_num) (by norm_num) (by norm_num)

/-- Claim C1: for every energy sample whose distance from energy_0 exceeds
4 beta, with beta > 0, gross_dos reports a DOS value of exactly 0 for that
sample: the integrand validity gate leaves the y array all-zero and the
quadrature of an all-zero array is 0. -/
theorem claim_C1_dos_zero_outside_band (e0 b a iE : ℝ) (nE nXi bp idx : ℕ)
    (hb : 0 < b)
    (h : 4 * b < |(gross_dos e0 b a nE nXi iE bp).1.getD idx 0 - e0|) :
    (gross_dos e0 b a nE nXi iE bp).2.getD idx 0 = 0 := by
  by_cases hidx : idx < (energy_grid e0 b nE iE).length
  · rw [gross_dos_snd_getD e0 b a nE nXi iE bp hidx]
    exact dos_at_energy_outside nXi bp hb h
  · refine List.getD_eq_default _ 0 ?_
    have hlen : (gross_dos e0 b a nE nXi iE bp).2.length =
        (energy_grid e0 b nE iE).length := by
      simp [gross_dos]
    rw [hlen]
    exact not_lt.1 hidx

/-- Witness for claim C1: with energy_0 = 0, beta = 1, interval_energy = 5
and num_points_energy = 2 the first energy sample is -5, outside the band
of half-width 4, and its DOS value is exactly 0. -/
theorem claim_C1_witness : (gross_dos 0 1 1 2 3 5 0).2.getD 0 0 = 0 := by
  apply claim_C1_dos_zero_outside_band 0 1 1 5 2 3 0 0 (by norm_num)
  have hval : (gross_dos 0 1 1 2 3 5 0).1.getD 0 0 = -5 := by
    show (energy_grid 0 1 2 5).getD 0 0 = -5
    unfold energy_grid linspace
    rw [show num_points 2 = 2 from rfl]
    rw [show List.range 2 = [0, 1] from rfl]
    simp only [List.map_cons, List.map_nil, List.dropLast, List.drop]
    norm_num
  rw [hval]
  norm_num

/-- Claim C3: for every index idx of the energy grid, gross_dos sets the
DOS entry at idx to 1/(lattice_constant^2 beta pi^2) times the composite
Simpson integral over the xi grid built for the energy sample at idx with
num_points_xi and bord_param of the integrand samples for that energy; the
right hand side depends only on that energy value and the read-only
parameters. -/
theorem claim_C3_dos_entry (e0 b a iE : ℝ) (nE nXi bp idx : ℕ)
    (h : idx < (gross_dos e0 b a nE nXi iE bp).1.length) :
    (gross_dos e0 b a nE nXi iE bp).2.getD idx 0 =
      1 / (a ^ 2 * b * Real.pi ^ 2) *
        simps (integrand_function ((gross_dos e0 b a nE nXi iE bp).1.getD idx 0) e0 b nXi bp).2
          (integrand_function ((gross_dos e0 b a nE nXi iE bp).1.getD idx 0) e0 b nXi bp).1 ∧
    (integrand_function ((gross_dos e0 b a nE nXi iE bp).1.getD idx 0) e0 b nXi bp).1 =
      xi_grid (integral_lower_limit ((gross_dos e0 b a nE nXi iE bp).1.getD idx 0) e0 b)
        (integral_upper_limit ((gross_dos e0 b a nE nXi iE bp).1.getD idx 0) e0 b) nXi bp :=
  ⟨gross_dos_snd_getD e0 b a nE nXi iE bp h, rfl⟩

/-- Witness for claim C3 at the first index of a concrete grid. -/
theorem claim_C3_witness :
    (gross_dos 0 1 1 2 3 1 0).2.getD 0 0 =
      1 / ((1 : ℝ) ^ 2 * 1 * Real.pi ^ 2) *
        simps (integrand_function ((gross_dos 0 1 1 2 3 1 0).1.getD 0 0) 0 1 3 0).2
          (integrand_function ((gross_dos 0 1 1 2 3 1 0).1.getD 0 0) 0 1 3 0).1 ∧
    (integrand_function ((gross_dos 0 1 1 2 3 1 0).1.getD 0 0) 0 1 3 0).1 =
      xi_grid (integral_lower_limit ((gross_dos 0 1 1 2 3 1 0).1.getD 0 0) 0 1)
        (integral_upper_limit ((gross_dos 0 1 1 2 3 1 0).1.getD 0 0) 0 1) 3 0 :=
  claim_C3_dos_entry 0 1 1 1 2 3 0 0 (by
    show 0 < (energy_grid 0 1 2 1).length
    rw [energy_grid_length]
    norm_num [num_points])

/-- Claim C7: integrand_function computes non-zero integrand values only
when the validity gate holds, otherwise the y array is all-zero; when the
gate holds, each sample with differ strictly below 1 is set to
1/sqrt(1 - differ) and each other sample carries forward the value at the
previous index, the value at index -1 being the still-zero last entry at
the first sample; and the y array has the same length as the xi array. -/
theorem claim_C7_integrand (energy e0 b : ℝ) (n bp : ℕ) :
    (integrand_function energy e0 b n bp).2.length =
      (integrand_function energy e0 b n bp).1.length ∧
    (¬ |(e0 - energy) / (4 * b)| ≤ 1 →
      (integrand_function energy e0 b n bp).2 =
        List.replicate (integrand_function energy e0 b n bp).1.length 0) ∧
    (|(e0 - energy) / (4 * b)| ≤ 1 →
      ∀ idx : ℕ, idx < (integrand_function energy e0 b n bp).1.length →
        (((e0 - energy) / (2 * b) -
            Real.cos ((integrand_function energy e0 b n bp).1.getD idx 0)) ^ 2 < 1 →
          (integrand_function energy e0 b n bp).2.getD idx 0 =
            1 / Real.sqrt (1 - ((e0 - energy) / (2 * b) -
              Real.cos ((integrand_function energy e0 b n bp).1.getD idx 0)) ^ 2)) ∧
        (1 ≤ ((e0 - energy) / (2 * b) -
            Real.cos ((integrand_function energy e0 b n bp).1.getD idx 0)) ^ 2 →
          (integrand_function energy e0 b n bp).2.getD idx 0 =
            if idx = 0 then 0
            else (integrand_function energy e0 b n bp).2.getD (idx - 1) 0)) := by
  refine ⟨?_, ?_, ?_⟩
  · by_cases hg : |(e0 - energy) / (4 * b)| ≤ 1 <;>
      simp [integrand_function, hg, integrand_loop_length]
  · intro hg
    simp [integrand_function, hg]
  · intro hg idx hidx
    have h2 : (integrand_function energy e0 b n bp).2 =
        integrand_loop ((e0 - energy) / (2 * b)) 0
          (xi_grid (integral_lower_limit energy e0 b)
            (integral_upper_limit energy e0 b) n bp) := by
      simp [integrand_function, hg]
    rw [h2]
    exact integrand_loop_getD ((e0 - energy) / (2 * b))
      (xi_grid (integral_lower_limit energy e0 b)
        (integral_upper_limit energy e0 b) n bp) 0 idx hidx

/-- Witness for claim C7: at energy 5 outside the band the y array is
all-zero, and at energy 0 at the band center the middle sample of a
three-point grid evaluates to 1. -/
theorem claim_C7_witness :
    (integrand_function 5 0 1 3 0).2 = List.replicate 3 0 ∧
    (integrand_function 0 0 1 3 0).2.getD 1 0 = 1 := by
  constructor
  · have h := (claim_C7_integrand 5 0 1 3 0).2.1 (by norm_num [abs_le])
    rw [h]
    have hl : (integrand_function 5 0 1 3 0).1.length = 3 := by
      show (xi_grid (integral_lower_limit 5 0 1) (integral_upper_limit 5 0 1) 3 0).length = 3
      rw [xi_grid_zero_eq, linspace_length]
    rw [hl]
  · have hlow : integral_lower_limit 0 0 1 = 0 := by
      unfold integral_lower_limit
      rw [if_neg (not_not_intro (by norm_num : (0 : ℝ) ≤ 0 ∧ (0 : ℝ) ≤ 0 + 4 * 1))]
      rw [show ((0 : ℝ) - 0) / (2 * 1) + 1 = 1 by norm_num, Real.arccos_one]
    have hup : integral_upper_limit 0 0 1 = Real.pi := by
      unfold integral_upper_limit
      rw [if_neg (not_not_intro (by norm_num : (0 : ℝ) - 4 * 1 ≤ 0 ∧ (0 : ℝ) ≤ 0))]
      rw [show ((0 : ℝ) - 0) / (2 * 1) - 1 = -1 by norm_num, Real.arccos_neg_one]
    have hxs : (integrand_function 0 0 1 3 0).1.getD 1 0 = Real.pi / 2 := by
      show (xi_grid (integral_lower_limit 0 0 1) (integral_upper_limit 0 0 1) 3 0).getD 1 0 =
        Real.pi / 2
      rw [hlow, hup, xi_grid_zero_eq]
      unfold linspace
      rw [show List.range 3 = [0, 1, 2] from rfl]
      simp only [List.map_cons, List.map_nil, List.getD_cons_succ, List.getD_cons_zero]
      norm_num
    have hlen : 1 < (integrand_function 0 0 1 3 0).1.length := by
      show 1 < (xi_grid (integral_lower_limit 0 0 1) (integral_upper_limit 0 0 1) 3 0).length
      rw [xi_grid_zero_eq, linspace_length]
      norm_num
    have h := ((claim_C7_integrand 0 0 1 3 0).2.2 (by norm_num) 1 hlen).1 (by
      rw [hxs, Real.cos_pi_div_two]
      norm_num)
    rw [h, hxs, Real.cos_pi_div_two]
    norm_num

/-- Claim C10: when the validity gate holds but a sample has differ at
least 1, the carry-forward at the first index reads Python index -1, the
last entry of the still zero-initialised y array, so the first sample is
assigned exactly 0; consequently on an all-singular grid every sample is
exactly 0. -/
theorem claim_C10_first_sample (energy e0 b : ℝ) (n bp : ℕ)
    (hg : |(e0 - energy) / (4 * b)| ≤ 1) :
    (0 < (integrand_function energy e0 b n bp).1.length →
      1 ≤ ((e0 - energy) / (2 * b) -
          Real.cos ((integrand_function energy e0 b n bp).1.getD 0 0)) ^ 2 →
      (integrand_function energy e0 b n bp).2.getD 0 0 = 0) ∧
    ((∀ xi ∈ (integrand_function energy e0 b n bp).1,
        1 ≤ ((e0 - energy) / (2 * b) - Real.cos xi) ^ 2) →
      (integrand_function energy e0 b n bp).2 =
        List.replicate (integrand_function energy e0 b n bp).1.length 0) := by
  have h2 : (integrand_function energy e0 b n bp).2 =
      integrand_loop ((e0 - energy) / (2 * b)) 0
        (xi_grid (integral_lower_limit energy e0 b)
          (integral_upper_limit energy e0 b) n bp) := by
    simp [integrand_function, hg]
  constructor
  · intro hlen hsing
    have h := (integrand_loop_getD ((e0 - energy) / (2 * b))
      (xi_grid (integral_lower_limit energy e0 b)
        (integral_upper_limit energy e0 b) n bp) 0 0 hlen).2 hsing
    rw [h2, h]
    simp
  · intro hall
    rw [h2]
    exact integrand_loop_all_singular ((e0 - energy) / (2 * b)) _ hall

/-- Witness for claim C10: at the band edge energy 4 with energy_0 = 0 and
beta = 1 the two-point grid collapses to the repeated point pi, every
sample has differ exactly 1, and the y array is exactly the zero array. -/
theorem claim_C10_witness :
    (integrand_function 4 0 1 2 0).2.getD 0 0 = 0 ∧
    (integrand_function 4 0 1 2 0).2 = List.replicate 2 0 := by
  have hlow : integral_lower_limit 4 0 1 = Real.pi := by
    unfold integral_lower_limit
    rw [if_neg (not_not_intro (by norm_num : (0 : ℝ) ≤ 4 ∧ (4 : ℝ) ≤ 0 + 4 * 1))]
    rw [show ((0 : ℝ) - 4) / (2 * 1) + 1 = -1 by norm_num, Real.arccos_neg_one]
  have hup : integral_upper_limit 4 0 1 = Real.pi := by
    unfold integral_upper_limit
    rw [if_pos (by norm_num : ¬((0 : ℝ) - 4 * 1 ≤ 4 ∧ (4 : ℝ) ≤ 0))]
  have hxs : (integrand_function 4 0 1 2 0).1 = [Real.pi, Real.pi] := by
    show xi_grid (integral_lower_limit 4 0 1) (integral_upper_limit 4 0 1) 2 0 = _
    rw [hlow, hup, xi_grid_zero_eq]
    unfold linspace
    rw [show List.range 2 = [0, 1] from rfl]
    simp only [List.map_cons, List.map_nil]
    norm_num
  obtain ⟨h1, h2⟩ := claim_C10_first_sample 4 0 1 2 0 (by norm_num [abs_le])
  have hall : ∀ xi ∈ (integrand_function 4 0 1 2 0).1,
      1 ≤ ((0 - 4) / (2 * 1) - Real.cos xi) ^ 2 := by
    rw [hxs]
    intro xi hxi
    rcases List.mem_cons.1 hxi with h | h
    · rw [h, Real.cos_pi]; norm_num
    · rw [List.mem_singleton.1 h, Real.cos_pi]; norm_num
  constructor
  · refine h1 ?_ ?_
    · rw [hxs]; norm_num
    · rw [hxs]
      simp only [List.getD_cons_zero, Real.cos_pi]
      norm_num
  · have h := h2 hall
    rw [h, hxs]
    rfl

end
